import Mathlib

/-!
Verification development for the wal-g multi-storage aliveness / WAL daemon
subsystem. Go code is shallowly embedded: Go strings and byte slices become
`List Char` / `List Nat`, Go maps become association lists, fallible code
returns `Except`, and machine integers use `Nat` with explicit `% 2^16`
where overflow matters. Definitions follow the Go source
(`internal/multistorage/cache/status_cache.go`,
`internal/multistorage/stats/cache/file.go`, the daemon loop in the
`postgres` package, and `pkg/storages/storage/folder.go`); helpers of the
repository that are absent from the provided sources are modelled from the
specification and carry a doc comment saying so.
-/

namespace WalG

/-- Go string, modelled as its character list. -/
abbrev GoStr := List Char

/-- Go byte slice, modelled as a list of byte values. -/
abbrev Bytes := List Nat

/-! ## Status cache data model (internal/multistorage/cache) -/

/-- Modelled from the spec: a storage endpoint cache key `{name, config_hash}`;
the `Key` type itself is not among the provided sources. Two endpoints are the
same cache key iff `(name, config_hash)` match. -/
structure Key where
  name : GoStr
  hash : GoStr
deriving DecidableEq, Repr

/-- Modelled from the spec: the alive fact
`{alive: bool, checked_at: timestamp, operation_weight_sum: int}`;
timestamps are abstracted to `Nat`. The `storageStatus` type itself is not
among the provided sources. -/
structure StorageStatus where
  alive : Bool
  checkedAt : Nat
  weightSum : Int
deriving DecidableEq, Repr

instance : Inhabited StorageStatus := ⟨⟨false, 0, 0⟩⟩

/-- Go map `storageStatuses = map[Key]storageStatus`, modelled as an
association list (iteration order of a Go map is unspecified; the list order
plays that role). -/
abbrev StatusMap := List (Key × StorageStatus)

/-- Lookup in a `StatusMap`, i.e. Go's `ss[key]` with presence bit. -/
def lookupKey : StatusMap → Key → Option StorageStatus
  | [], _ => none
  | e :: t, k => if e.1 = k then some e.2 else lookupKey t k

/-- Go map assignment `m[k] = v`: replace the entry if the key is present,
append it otherwise. -/
def upsert : StatusMap → Key → StorageStatus → StatusMap
  | [], k, v => [(k, v)]
  | e :: t, k, v => if e.1 = k then (k, v) :: t else e :: upsert t k v

/-- Well-formedness of an association list as the image of a Go map:
no key occurs twice. -/
def nodupKeys (m : StatusMap) : Prop := (m.map (·.1)).Nodup

instance (m : StatusMap) : Decidable (nodupKeys m) := by
  unfold nodupKeys; infer_instance

/-- Modelled from the spec: merge rule for one key present in both maps
(`mergeByRelevance` is not among the provided sources): "per key, pick the
one with larger `checked_at`; if equal, prefer `alive=true`. The
`operation_weight_sum` of the winner is kept". On a full tie the first
argument is kept (the spec fixes no winner there). -/
def mergeStatus (a b : StorageStatus) : StorageStatus :=
  if b.checkedAt < a.checkedAt then a
  else if a.checkedAt < b.checkedAt then b
  else if a.alive then a
  else if b.alive then b
  else a

/-- Modelled from the spec: `mergeByRelevance` combines two status maps,
starting from the first map and folding in the second one entry by entry
with `mergeStatus` deciding conflicts. -/
def mergeByRelevance (a b : StatusMap) : StatusMap :=
  b.foldl
    (fun acc e =>
      upsert acc e.1
        (match lookupKey acc e.1 with
          | none => e.2
          | some old => mergeStatus old e.2))
    a

/-- Combination of two optional per-key entries, as performed by
`mergeByRelevance` for one key: an entry present on one side only survives,
entries present on both sides are combined with `mergeStatus`. -/
def combineStatus : Option StorageStatus → Option StorageStatus →
    Option StorageStatus
  | none, none => none
  | some x, none => some x
  | none, some y => some y
  | some x, some y => some (mergeStatus x y)

/-- Strict preference order underlying the merge rule: `betterStatus b a`
holds when `b` beats `a`, i.e. `b` has the larger `checked_at`, or the
timestamps are equal and only `b` is alive. -/
def betterStatus (b a : StorageStatus) : Prop :=
  a.checkedAt < b.checkedAt ∨
    (a.checkedAt = b.checkedAt ∧ a.alive = false ∧ b.alive = true)

instance (b a : StorageStatus) : Decidable (betterStatus b a) := by
  unfold betterStatus; infer_instance

/-- Numeric rank realising `betterStatus` as an order on `Nat`. -/
def statusRank (s : StorageStatus) : Nat :=
  2 * s.checkedAt + (if s.alive then 1 else 0)

/-- Equality of two association lists as Go maps: the same lookups. -/
def mapEquiv (a b : StatusMap) : Prop := ∀ k, lookupKey a k = lookupKey b k

/-- Modelled from the spec: "A fact is relevant iff `now − checked_at ≤ ttl`". -/
def statusRelevant (ttl now : Nat) (s : StorageStatus) : Bool :=
  now - s.checkedAt ≤ ttl

/-- Modelled from the spec: `storageStatuses.isRelevant` is true when every
requested key is in-memory and its fact is relevant ("If every requested key
is in-memory and relevant, returns immediately"); a key with no fact is never
relevant ("`UNKNOWN` is the absence of a relevant fact"). -/
def isRelevantAll (m : StatusMap) (ttl now : Nat) (keys : List Key) : Bool :=
  keys.all fun k =>
    match lookupKey m k with
    | some s => statusRelevant ttl now s
    | none => false

/-- Modelled from the spec: `splitByRelevance` "splits the subset by TTL":
requested keys with a relevant fact go to the first map, the rest (stale or
absent — Go indexing yields the zero-value status for absent keys) go to the
second. -/
def splitByRelevance (m : StatusMap) (ttl now : Nat) (keys : List Key) :
    StatusMap × StatusMap :=
  (keys.filterMap fun k =>
      match lookupKey m k with
      | some s => if statusRelevant ttl now s then some (k, s) else none
      | none => none,
   keys.filterMap fun k =>
      match lookupKey m k with
      | some s => if statusRelevant ttl now s then none else some (k, s)
      | none => some (k, default))

/-- Modelled from the spec: `storageStatuses.aliveMap` projects each entry to
`(storage name, alive)`; Go's `AliveMap` is `map[string]bool`. -/
def aliveMap (m : StatusMap) : List (GoStr × Bool) :=
  m.map fun e => (e.1.name, e.2.alive)

/-- Modelled from the spec: `storageStatuses.filter` keeps the entries whose
key is among the given ones. -/
def filterKeys (m : StatusMap) (keys : List Key) : StatusMap :=
  m.filter fun e => keys.contains e.1

/-! ## correspondingKeys (status_cache.go lines 117–127)

The Go code is

  keys := make([]Key, len(names))
  for _, name := range names {
      key, ok := c.usedKeys[name]
      if !ok { return nil, fmt.Errorf("unknown storage %q", name) }
      keys = append(keys, key)
  }
  return keys, nil

`make([]Key, n)` creates a slice already holding `n` zero-value keys, and
`append` then grows it, so the result has `2n` elements. -/

/-- Go's `usedKeys map[string]Key`, as an association list. -/
abbrev UsedKeys := List (GoStr × Key)

/-- Lookup `c.usedKeys[name]`. -/
def lookupName : UsedKeys → GoStr → Option Key
  | [], _ => none
  | e :: t, n => if e.1 = n then some e.2 else lookupName t n

/-- Zero value of the `Key` struct, as produced by `make([]Key, n)`. -/
def zeroKey : Key := ⟨[], []⟩

/-- Loop body of `correspondingKeys`: appends the key for each name to the
accumulator, failing on an unknown name. -/
def correspondingKeysGo (uk : UsedKeys) (acc : List Key) :
    List GoStr → Except GoStr (List Key)
  | [] => .ok acc
  | n :: rest =>
    match lookupName uk n with
    | some k => correspondingKeysGo uk (acc ++ [k]) rest
    | none => .error n

/-- Embedding of `cache.correspondingKeys`: the accumulator starts as
`make([]Key, len(names))`, i.e. `len(names)` zero-value keys. -/
def correspondingKeys (uk : UsedKeys) (names : List GoStr) :
    Except GoStr (List Key) :=
  correspondingKeysGo uk (List.replicate names.length zeroKey) names

/-! ## The cache type (status_cache.go): Read, ApplyExplicitCheckResult,
ApplyOperationResult, Flush -/

/-- Lookup in Go's `checkResult map[string]bool`. -/
def lookupCheck : List (GoStr × Bool) → GoStr → Option Bool
  | [], _ => none
  | e :: t, n => if e.1 = n then some e.2 else lookupCheck t n

/-- Fields of the `cache` struct fixed by `New`: the used-keys table, the
TTL, whether a shared file is configured (`shFileUsed`), and
`shFileFlushTimeout` (5 minutes in the source, kept abstract here). -/
structure CacheConfig where
  usedKeys : UsedKeys
  ttl : Nat
  fileUsed : Bool
  flushTimeout : Nat
deriving DecidableEq, Repr

/-- Mutable state seen by the cache: the in-memory statuses
(`shMem.Statuses`), the parsed content of the shared file (`none` models a
missing or unreadable file, whose read error is logged and swallowed), and
the `SharedFile.Updated` stamp (set at creation; `write` never refreshes
it). -/
structure CacheState where
  mem : StatusMap
  file : Option StatusMap
  fileUpdated : Nat
deriving DecidableEq, Repr

/-- Loop in `ApplyOperationResult` that scans `usedKeys` for a key with the
given storage name; the zero-value `Key` remains when none matches. -/
def findKeyByName : UsedKeys → GoStr → Key
  | [], _ => zeroKey
  | e :: t, s => if e.2.name = s then e.2 else findKeyByName t s

/-- Embedding of `ApplyOperationResult`: update the one fact (the
per-status update `applyOperationResult` is modelled from the spec:
`checked_at = now`, the operation weight accumulates), then rewrite the
shared file with the in-memory map — without merging the file's previous
content — unless the file is unused or younger than the flush timeout. -/
def cacheApplyOperationResult (cfg : CacheConfig) (s : CacheState)
    (now : Nat) (storage : GoStr) (alive : Bool) (weight : Int) :
    CacheState :=
  let key := findKeyByName cfg.usedKeys storage
  let newStatus : StorageStatus :=
    ⟨alive, now, ((lookupKey s.mem key).getD default).weightSum + weight⟩
  let mem' := upsert s.mem key newStatus
  if !cfg.fileUsed then { s with mem := mem' }
  else if now - s.fileUpdated < cfg.flushTimeout then { s with mem := mem' }
  else { s with mem := mem', file := some mem' }

/-- Modelled from the spec: `storageStatuses.applyExplicitCheckResult`
replaces the fact of every checked key with a fresh one carrying
`checked_at = now`. -/
def applyExplicitStatuses (m : StatusMap)
    (checkResultByKeys : List (Key × Bool)) (now : Nat) : StatusMap :=
  checkResultByKeys.foldl (fun acc e => upsert acc e.1 ⟨e.2, now, 0⟩) m

/-- Embedding of `ApplyExplicitCheckResult`: translate the name-keyed check
result to keys via `usedKeys`, apply it to memory, compute the alive map of
the requested keys (via the buggy `correspondingKeys`), and rewrite the
shared file with the in-memory map under the same staleness rule as
`ApplyOperationResult`. -/
def cacheApplyExplicitCheckResult (cfg : CacheConfig) (s : CacheState)
    (now : Nat) (checkResult : List (GoStr × Bool)) (names : List GoStr) :
    Except GoStr (List (GoStr × Bool) × CacheState) :=
  let checkResultByKeys := cfg.usedKeys.filterMap
    (fun e => (lookupCheck checkResult e.2.name).map (fun r => (e.2, r)))
  let mem' := applyExplicitStatuses s.mem checkResultByKeys now
  match correspondingKeys cfg.usedKeys names with
  | .error e => .error e
  | .ok storageKeys =>
    let am := aliveMap (filterKeys mem' storageKeys)
    if !cfg.fileUsed then .ok (am, { s with mem := mem' })
    else if now - s.fileUpdated < cfg.flushTimeout then
      .ok (am, { s with mem := mem' })
    else .ok (am, { s with mem := mem', file := some mem' })

/-- Embedding of `Flush`: read the file, merge it into the in-memory map
(memory wins conflicts by `mergeByRelevance`'s rule), and write the merged
map back; the in-memory map itself is left unchanged. -/
def cacheFlush (cfg : CacheConfig) (s : CacheState) : CacheState :=
  if !cfg.fileUsed then s
  else
    let merged := mergeByRelevance s.mem (s.file.getD [])
    { s with file := some merged }

/-- Result of `cacheRead`: the two alive maps, the state after the call,
and whether the shared file was read (`Read` returns before touching the
file only on its fast path). -/
structure ReadResult where
  relevantFacts : List (GoStr × Bool)
  outdatedFacts : List (GoStr × Bool)
  state : CacheState
  fileTouched : Bool
deriving DecidableEq, Repr

/-- Embedding of `Read`: resolve the requested names through the buggy
`correspondingKeys`, take the fast path (whole in-memory alive map, no file
access) only if every resulting key — including the zero-value padding —
has a relevant in-memory fact; otherwise read the file (errors swallowed),
merge it into memory, and split the requested keys by TTL. -/
def cacheRead (cfg : CacheConfig) (s : CacheState) (now : Nat)
    (names : List GoStr) : Except GoStr ReadResult :=
  match correspondingKeys cfg.usedKeys names with
  | .error e => .error e
  | .ok storageKeys =>
    if isRelevantAll s.mem cfg.ttl now storageKeys then
      .ok ⟨aliveMap s.mem, [], s, false⟩
    else
      let merged := mergeByRelevance s.mem (s.file.getD [])
      let parts := splitByRelevance merged cfg.ttl now storageKeys
      .ok ⟨aliveMap parts.1, aliveMap parts.2, { s with mem := merged }, true⟩

/-! ## The shared cache file (internal/multistorage/stats/cache/file.go) -/

/-- Modelled from the spec: the cache-file key string
`"<name>#<config_hash>"` produced by `Key.String`. -/
def keyStr (k : Key) : GoStr := k.name ++ '#' :: k.hash

/-- Modelled from the spec: `ParseKey` recovers a `Key` from its string
form by splitting at the first `#` (name before it, hash after it; absent
a `#` the whole string is the name). -/
def parseKey (s : GoStr) : Key :=
  ⟨s.takeWhile (fun c => c != '#'), (s.dropWhile (fun c => c != '#')).drop 1⟩

/-- Lexicographic comparison of Go strings, used to model the sorted key
order `encoding/json` gives the members of a marshalled map. -/
def lexLeB : GoStr → GoStr → Bool
  | [], _ => true
  | _ :: _, [] => false
  | a :: as, b :: bs => if a < b then true else if b < a then false else lexLeB as bs

/-- Order on string-keyed file entries by key string. -/
def pairLe (a b : GoStr × StorageStatus) : Prop := lexLeB a.1 b.1 = true

instance : DecidableRel pairLe := fun a b => by
  unfold pairLe; infer_instance

/-- Order on `Key`-keyed entries by the serialised key string. -/
def keyPairLe (a b : Key × StorageStatus) : Prop :=
  lexLeB (keyStr a.1) (keyStr b.1) = true

instance : DecidableRel keyPairLe := fun a b => by
  unfold keyPairLe; infer_instance

/-- Embedding of the encoding side of `SharedFile.write`: build the
string-keyed object (`validJSONContent[key.String()] = stat`) and marshal
it; `encoding/json` emits the members of a Go map sorted by key, which is
modelled by sorting the entry list (the byte-level JSON rendering of the
standard library is out of scope). -/
def marshalFile (m : StatusMap) : List (GoStr × StorageStatus) :=
  List.insertionSort pairLe (m.map (fun e => (keyStr e.1, e.2)))

/-- Embedding of the decoding side of `SharedFile.read`: unmarshal the
string-keyed object and map `ParseKey` over the keys
(`content[ParseKey(str)] = stat`). -/
def unmarshalFile (l : List (GoStr × StorageStatus)) : StatusMap :=
  l.map (fun e => (parseKey e.1, e.2))

/-- Canonical form of a status map: entries sorted by serialised key. -/
def canonicalFile (m : StatusMap) : StatusMap :=
  List.insertionSort keyPairLe m

/-- Embedding of `file.Truncate(n)`: keep the first `n` bytes, zero-extend
when the file is shorter. -/
def goTruncate (f : Bytes) (n : Nat) : Bytes :=
  f.take n ++ List.replicate (n - f.length) 0

/-- Embedding of `file.Write(bytes)` on a freshly opened file (offset 0):
overwrite the head of the file in place. -/
def goWriteAt0 (f : Bytes) (data : Bytes) : Bytes :=
  data ++ f.drop data.length

/-- Embedding of the file mutation in `SharedFile.write`: truncate to the
new length, then write the bytes at offset 0. -/
def sharedFileWrite (old data : Bytes) : Bytes :=
  goWriteAt0 (goTruncate old data.length) data

/-- Example map whose single key name contains a `#`, defeating the
round-trip. -/
def mapHash : StatusMap := [(⟨['a', '#', 'b'], ['c']⟩, ⟨true, 1, 0⟩)]

/-! ## Recursive folder listing (pkg/storages/storage/folder.go) -/

/-- Folder hierarchy as seen through the `Folder` interface: each node
carries its `GetPath()` string, its objects (by name — the claims do not
involve the remaining object metadata), and its sub-folder handles. -/
inductive FolderTree where
  | node (path : GoStr) (objs : List GoStr) (subs : List FolderTree)

/-- Path of the folder handle (`GetPath`). -/
def FolderTree.path : FolderTree → GoStr
  | node p _ _ => p

/-- Objects of the folder (`ListFolder`, first component). -/
def FolderTree.objs : FolderTree → List GoStr
  | node _ o _ => o

/-- Sub-folders of the folder (`ListFolder`, second component). -/
def FolderTree.subs : FolderTree → List FolderTree
  | node _ _ s => s

mutual

/-- Size measure of a folder tree, for termination of the traversals. -/
def FolderTree.size : FolderTree → Nat
  | .node _ _ subs => 1 + FolderTree.sizeList subs

/-- Size measure of a list of folder trees. -/
def FolderTree.sizeList : List FolderTree → Nat
  | [] => 0
  | t :: ts => 1 + FolderTree.size t + FolderTree.sizeList ts

end

/-- Size of a concatenation of folder lists. -/
theorem sizeList_append (a b : List FolderTree) :
    FolderTree.sizeList (a ++ b)
      = FolderTree.sizeList a + FolderTree.sizeList b := by
  induction a with
  | nil => simp [FolderTree.sizeList]
  | cons t ts ih => simp [FolderTree.sizeList, ih]; omega

/-- Filtering folders does not increase the size. -/
theorem sizeList_filter (p : FolderTree → Bool) (l : List FolderTree) :
    FolderTree.sizeList (l.filter p) ≤ FolderTree.sizeList l := by
  induction l with
  | nil => simp [FolderTree.sizeList]
  | cons t ts ih =>
    simp only [List.filter]
    cases p t <;> simp [FolderTree.sizeList] <;> omega

/-- The sub-folders of a tree are strictly smaller than the tree. -/
theorem sizeList_subs_lt (t : FolderTree) :
    FolderTree.sizeList t.subs < FolderTree.size t := by
  cases t
  simp [FolderTree.size, FolderTree.subs]

/-- Embedding of `strings.TrimPrefix`. -/
def trimPre (s pre : GoStr) : GoStr :=
  if pre.isPrefixOf s then s.drop pre.length else s

/-- Go's `path.Join(dir, name)` under the conditions of its uses here
(`dir` is empty or a cleaned path ending in `/`, `name` a cleaned relative
name): plain concatenation. -/
def joinPath (dir nm : GoStr) : GoStr := dir ++ nm

/-- Embedding of `filterSubfolders`: keep the sub-folders whose path
relative to the root folder satisfies the selector. -/
def filterSubfolders (rootPath : GoStr) (folders : List FolderTree)
    (sel : GoStr → Bool) : List FolderTree :=
  folders.filter (fun f => sel (trimPre f.path rootPath))

/-- Embedding of the BFS loop of `ListFolderRecursivelyWithFilter`: pop the
head of the queue, list it, prepend the folder's path relative to the entry
folder to each object name, and push the selected sub-folders onto the
queue. -/
def bfsAux (entryPath : GoStr) (sel : GoStr → Bool) :
    List FolderTree → List GoStr
  | [] => []
  | t :: queue =>
    t.objs.map (joinPath (trimPre t.path entryPath)) ++
      bfsAux entryPath sel (queue ++ filterSubfolders entryPath t.subs sel)
termination_by q => FolderTree.sizeList q
decreasing_by
  rw [sizeList_append]
  have h2 := sizeList_filter
    (fun f => sel (trimPre f.path entryPath)) t.subs
  have h3 := sizeList_subs_lt t
  simp only [FolderTree.sizeList, filterSubfolders]
  omega

/-- Embedding of `ListFolderRecursivelyWithFilter`: BFS starting from the
queue `[folder]`. -/
def listFolderRecursivelyWithFilter (f : FolderTree) (sel : GoStr → Bool) :
    List GoStr :=
  bfsAux f.path sel [f]

/-- Embedding of `ListFolderRecursively`: the filtered variant with the
always-true selector. -/
def listFolderRecursively (f : FolderTree) : List GoStr :=
  listFolderRecursivelyWithFilter f (fun _ => true)

mutual

/-- Flattened depth-first listing computing each object's name with the
same `TrimPrefix` against a fixed base path; an order-insensitive
restatement of the BFS result. -/
def dfsFlat (base : GoStr) : FolderTree → List GoStr
  | .node p objs subs =>
    objs.map (joinPath (trimPre p base)) ++ dfsFlatList base subs

/-- List version of `dfsFlat`. -/
def dfsFlatList (base : GoStr) : List FolderTree → List GoStr
  | [] => []
  | t :: ts => dfsFlat base t ++ dfsFlatList base ts

end

mutual

/-- Specification of the recursive listing: every object reachable in the
tree, named relative to the entry folder by prepending, level by level, the
path of its containing sub-folder relative to that sub-folder's parent. -/
def relSpec : FolderTree → List GoStr
  | .node p objs subs => objs ++ relSpecList p subs

/-- List version of `relSpec`: prepends each child's relative name to the
names produced below it. -/
def relSpecList (parentPath : GoStr) : List FolderTree → List GoStr
  | [] => []
  | t :: ts =>
    (relSpec t).map (fun n => trimPre t.path parentPath ++ n) ++
      relSpecList parentPath ts

end

mutual

/-- Well-formedness of a folder tree: every sub-folder's path extends its
parent's path, the invariant `GetSubFolder`-produced handles satisfy by
construction. -/
def wfTree : FolderTree → Bool
  | .node p _ subs => wfSubs p subs

/-- List version of `wfTree`. -/
def wfSubs (p : GoStr) : List FolderTree → Bool
  | [] => true
  | t :: ts => (p.isPrefixOf t.path && wfTree t) && wfSubs p ts

end

/-- Embedding of `strings.HasSuffix(s, "/")`. -/
def hasSuffixSlash (s : GoStr) : Bool := s.getLast? == some '/'

/-- Embedding of `strings.Trim(s, "/")`: drop leading and trailing `/`. -/
def trimSlashes (s : GoStr) : GoStr :=
  ((s.dropWhile (fun c => c == '/')).reverse.dropWhile (fun c => c == '/')).reverse

/-- Embedding of `path.Split`: split after the final slash into directory
(with trailing `/`) and file name. -/
def goPathSplit (s : GoStr) : GoStr × GoStr :=
  let file := (s.reverse.takeWhile (fun c => c != '/')).reverse
  (s.take (s.length - file.length), file)

/-- Path segments of a relative path: the non-empty components between
slashes. -/
def segments (s : GoStr) : List GoStr :=
  (s.splitOn '/').filter (fun seg => seg != [])

/-- Resolution of a sub-folder handle against the tree: follow one segment
at a time, expecting each child's path to be the parent's path plus the
segment plus `/`. -/
def navigate : FolderTree → List GoStr → Option FolderTree
  | t, [] => some t
  | t, seg :: rest =>
    match t.subs.find? (fun c => c.path == t.path ++ seg ++ ['/']) with
    | some c => navigate c rest
    | none => none

/-- Embedding of `GetSubFolder` as resolution in the tree; `none` stands
for a handle onto a folder that does not materially exist. -/
def getSubFolder (t : FolderTree) (rel : GoStr) : Option FolderTree :=
  navigate t (segments rel)

/-- Objects of a possibly missing folder: a missing folder lists empty
without error (the `Folder` contract). -/
def listObjsOpt : Option FolderTree → List GoStr
  | none => []
  | some f => f.objs

/-- Recursive listing of a possibly missing folder. -/
def listRecOpt : Option FolderTree → List GoStr
  | none => []
  | some f => listFolderRecursively f

/-- Embedding of `ListFolderRecursivelyWithPrefix`: when the prefix is
non-empty and does not end in `/`, look for a file of that name in its
parent folder and short-circuit to that single object; otherwise (or when
no such file exists) list the sub-folder at the prefix recursively and
prepend the prefix. -/
def listFolderRecursivelyWithPfx (t : FolderTree) (pfx : GoStr) :
    List GoStr :=
  let p2 := trimSlashes pfx
  if pfx ≠ [] ∧ hasSuffixSlash pfx = false then
    match (listObjsOpt (getSubFolder t (goPathSplit p2).1)).find?
        (fun o => o == (goPathSplit p2).2) with
    | some o => [joinPath (goPathSplit p2).1 o]
    | none => (listRecOpt (getSubFolder t p2)).map (joinPath p2)
  else (listRecOpt (getSubFolder t p2)).map (joinPath p2)

/-- Example folder tree: entry `e/` holding `o1` and a sub-folder `e/s/`
holding `o2`. -/
def tEx : FolderTree :=
  .node ['e', '/'] [['o', '1']]
    [.node ['e', '/', 's', '/'] [['o', '2']] []]

/-! ## Daemon wire protocol (spec §6) and SocketMessageReader.Next -/

/-- Modelled from the spec: wire byte for `Check` (0x43). -/
def checkTypeByte : Nat := 0x43

/-- Modelled from the spec: wire byte for `WalPush` (0x46). -/
def walPushTypeByte : Nat := 0x46

/-- Modelled from the spec: wire byte for `WalFetch` (0x47). -/
def walFetchTypeByte : Nat := 0x47

/-- Modelled from the spec: wire byte for `Ok` (0x4F). -/
def okByte : Nat := 0x4F

/-- Modelled from the spec: wire byte for `ArchiveNonExistence` (0x4E). -/
def archiveNonExistenceByte : Nat := 0x4E

/-- Modelled from the spec: wire byte for `Error` (0x45). -/
def errorByte : Nat := 0x45

/-- Body size computed by `SocketMessageReader.Next`: Go evaluates
`messageLength - 3` in `uint16` arithmetic, which wraps modulo `2^16`. -/
def nextBodyLen (msgLen : Nat) : Nat := (msgLen + 2 ^ 16 - 3) % 2 ^ 16

/-- Embedding of `SocketMessageReader.Next`: read a 3-byte header
(type, 2-byte big-endian length), then read `length - 3` body bytes with
`uint16` wrap-around; errors mirror the short-read failures of
`io.ReadFull`. Returns the message type, the body, and the unread rest of
the stream. -/
def socketNext (stream : Bytes) : Except GoStr (Nat × Bytes × Bytes) :=
  match stream with
  | t :: b1 :: b2 :: rest =>
    let msgLen := 256 * b1 + b2
    let bodyLen := nextBodyLen msgLen
    if bodyLen ≤ rest.length then
      .ok (t, rest.take bodyLen, rest.drop bodyLen)
    else
      .error ['b', 'o', 'd', 'y']
  | _ => .error ['p', 'a', 'r', 'a', 'm', 's']

/-! ## ConfigureMultiStorage and handleMessage (daemon sources) -/

/-- Configuration inputs read by `ConfigureMultiStorage`: whether the primary
storage configures successfully, how many failover storages there are, and
the settings it reads by name. -/
structure StorageSettings where
  primaryOk : Bool
  failoverCount : Nat
  failoverCheckSetting : Option Bool
  cacheLifetime : Option Nat
  checkTimeout : Option Nat
  checkSizeBytes : Nat
deriving DecidableEq, Repr

/-- Result of `ConfigureMultiStorage`: the `multistorage.Config` fields the
daemon claims are about. All fields start at their zero values, as in
`config := &multistorage.Config{}`. -/
structure MultiConfig where
  aliveChecks : Bool
  statusCacheTTL : Nat
  aliveCheckTimeout : Nat
  checkWrite : Bool
  aliveCheckWriteBytes : Nat
deriving DecidableEq, Repr

/-- Embedding of `ConfigureMultiStorage(checkWrite)`: configures primary and
failovers, defaults `AliveChecks` to `len(failovers) > 0`, and only inside
`if config.AliveChecks` reads the TTL and timeout settings, sets
`config.CheckWrite = checkWrite`, and (only when `CheckWrite`) the probe
write size. -/
def configureMultiStorage (st : StorageSettings) (checkWrite : Bool) :
    Except GoStr MultiConfig :=
  if !st.primaryOk then .error ['p', 'r', 'i', 'm', 'a', 'r', 'y']
  else
    let aliveChecksDefault := decide (0 < st.failoverCount)
    let aliveChecks := st.failoverCheckSetting.getD aliveChecksDefault
    if aliveChecks then
      match st.cacheLifetime, st.checkTimeout with
      | some ttl, some timeout =>
        .ok ⟨true, ttl, timeout, checkWrite,
          if checkWrite then st.checkSizeBytes else 0⟩
      | _, _ => .error ['s', 'e', 't', 't', 'i', 'n', 'g']
    else
      .ok ⟨false, 0, 0, false, 0⟩

/-- Embedding of the storage construction in `handleMessage`: the source runs
`ConfigureMultiStorage(true)` for every incoming message, ignoring the
message type (the `mt` parameter is taken only to show that independence). -/
def handleMessageConfig (st : StorageSettings) (_mt : Nat) :
    Except GoStr MultiConfig :=
  configureMultiStorage st true

/-! ## The connection worker: Listen, handleMessage and the typed handlers -/

/-- Outcome of the WAL fetch pipeline (`HandleWALFetch`), which is outside
the provided sources: the segment was fetched, it was absent in every alive
storage (`internal.ArchiveNonExistenceError`), or some other failure
occurred. -/
inductive FetchOut where
  | success
  | archiveNonExistence
  | failure
deriving DecidableEq, Repr

/-- Environment of one `handleMessage` call: whether
`ConfigureMultiStorage` and handler construction succeed, the outcome of the
WAL upload pipeline per body, the `PGDATA` setting, and the outcome of the
fetch pipeline per (file name, destination path). These collaborators are
outside the provided sources and are abstracted as oracles. -/
structure DaemonEnv where
  configOk : Bool
  pushOk : Bytes → Bool
  pgdata : Option Bytes
  fetchOut : Bytes → Bytes → FetchOut

/-- Modelled from the spec: `daemon.BytesToArgs` splits the message body
into its NUL-separated fields ("`WalFetch` body is two NUL-separated fields
`filename\x00dest_path`"). -/
def bytesToArgs (body : Bytes) : List Bytes :=
  body.splitOn 0

/-- Embedding of `getFullPath`: fails when `PGDATA` is not configured,
otherwise joins `PGDATA` with the relative path (byte 47 is `/`). -/
def getFullPath (pgdata : Option Bytes) (rel : Bytes) : Except Unit Bytes :=
  match pgdata with
  | none => .error ()
  | some pg => .ok (pg ++ 47 :: rel)

/-- Embedding of `WalFetchMessageHandler.Handle`: parse the two
NUL-separated arguments, resolve the destination path, run the fetch;
on `ArchiveNonExistenceError` write the `ArchiveNonExistence` reply and
return without error, on any other failure return the error (so the caller
writes `Error`), on success write `OK`. The returned list holds the reply
bytes the handler wrote to the connection. -/
def walFetchHandle (env : DaemonEnv) (body : Bytes) : Except Unit Bytes :=
  if (bytesToArgs body).length = 2 then
    match getFullPath env.pgdata ((bytesToArgs body).getD 1 []) with
    | .error _ => .error ()
    | .ok fullPath =>
      match env.fetchOut ((bytesToArgs body).getD 0 []) fullPath with
      | .archiveNonExistence => .ok [archiveNonExistenceByte]
      | .success => .ok [okByte]
      | .failure => .error ()
  else .error ()

/-- Embedding of `handleMessage` plus the per-type handlers: configure the
multi-storage (any failure is an error), dispatch on the message type byte
(`Check` writes `OK`; `WalPush` runs the upload and writes `OK` on success;
`WalFetch` behaves as `walFetchHandle`; an unknown type is an error).
The `.ok` payload is the list of reply bytes written by the handler. -/
def handleMsg (env : DaemonEnv) (t : Nat) (body : Bytes) :
    Except Unit Bytes :=
  if !env.configOk then .error ()
  else if t = checkTypeByte then .ok [okByte]
  else if t = walPushTypeByte then
    (if env.pushOk body then .ok [okByte] else .error ())
  else if t = walFetchTypeByte then walFetchHandle env body
  else .error ()

/-- Incoming traffic of one connection, as seen after framing: each element
is a successfully framed message `(type, body)`, or `none` for a read/framing
failure at that point; the end of the list models the peer closing (so the
next read fails too). -/
abbrev ConnInput := List (Option (Nat × Bytes))

/-- Embedding of `Listen`: read messages in a loop; a read failure writes
`Error` and returns; a handler error writes `Error` and returns; after a
successful `WalPush` or `WalFetch` the worker returns (closing the
connection); after any other handled message (i.e. `Check`) it loops.
Returns the reply bytes written and the part of the input left unread at
close. -/
def listen (env : DaemonEnv) : ConnInput → Bytes × ConnInput
  | [] => ([errorByte], [])
  | none :: rest => ([errorByte], rest)
  | some (t, body) :: rest =>
    match handleMsg env t body with
    | .error _ => ([errorByte], rest)
    | .ok replies =>
      if t = walPushTypeByte ∨ t = walFetchTypeByte then (replies, rest)
      else
        let r := listen env rest
        (replies ++ r.1, r.2)

/-- Example daemon environment where everything succeeds. -/
def envEx : DaemonEnv :=
  ⟨true, fun _ => true, some [100], fun _ _ => .success⟩

/-- Example environment whose fetch pipeline reports the segment missing in
every alive storage. -/
def envANE : DaemonEnv :=
  ⟨true, fun _ => true, some [100], fun _ _ => .archiveNonExistence⟩

/-- Example environment whose fetch pipeline fails for another reason. -/
def envFetchFail : DaemonEnv :=
  ⟨true, fun _ => true, some [100], fun _ _ => .failure⟩

/-- Example settings: primary configures fine, one failover, no explicit
check setting, both durations set. -/
def stEx : StorageSettings := ⟨true, 1, none, some 5, some 7, 3⟩

/-- Example used-keys table with a single storage `"s"`. -/
def ukEx : UsedKeys := [(['s'], ⟨['s'], ['h']⟩)]

/-- Example key for the storage named `"s"`. -/
def k0 : Key := ⟨['s'], ['h']⟩

/-- Example map carrying weight 1 for `k0`. -/
def mapA : StatusMap := [(k0, ⟨true, 5, 1⟩)]

/-- Example map carrying weight 2 for `k0`. -/
def mapB : StatusMap := [(k0, ⟨true, 5, 2⟩)]

/-- Example key for a second storage, present only in the cache file. -/
def k1 : Key := ⟨['t'], ['g']⟩

/-- Example cache configuration: one storage `"s"`, TTL 10, shared file in
use, flush timeout 300. -/
def cfgEx : CacheConfig := ⟨[(['s'], k0)], 10, true, 300⟩

/-- Example state for C1: memory empty, the shared file holds a fact for
`k1` written by another process, the file handle was created at time 0. -/
def stateC1 : CacheState := ⟨[], some [(k1, ⟨true, 50, 0⟩)], 0⟩

/-- Example state for C2: a relevant in-memory fact for `k0`, an empty but
readable shared file. -/
def stateC2 : CacheState := ⟨[(k0, ⟨true, 100, 0⟩)], some [], 0⟩

end WalG

namespace WalG

/-- C3: the claim asserts `correspondingKeys` returns exactly one key per
requested name. The code evaluates to a slice of `2n` keys, the first `n`
of which are zero values: on the single configured name `"s"` it yields
`[zeroKey, key("s")]`, not `[key("s")]`. -/
theorem c3_correspondingKeys_pads_with_zero_keys :
    correspondingKeys ukEx [['s']] = .ok [zeroKey, ⟨['s'], ['h']⟩] ∧
      correspondingKeys ukEx [['s']] ≠ .ok [⟨['s'], ['h']⟩] := by
  constructor
  · rfl
  · intro h
    simp [correspondingKeys, correspondingKeysGo, ukEx, lookupName] at h

/-- C4 counterexample: the claim says `check_write` is true iff the message
type is `WalPush`; but for a `Check` message the daemon also builds the
storage with `check_write = true`. -/
theorem c4_counterexample_check_write_true_for_check :
    (handleMessageConfig stEx checkTypeByte).map (·.checkWrite) = .ok true ∧
      checkTypeByte ≠ walPushTypeByte := by
  constructor
  · rfl
  · decide

/-- C4 (amended): the multi-storage built by `handleMessage` does not depend
on the message type at all, and its `check_write` flag equals the
alive-checks flag (so it is `true` whenever aliveness checks are enabled,
for `Check` and `WalFetch` just as for `WalPush`). -/
theorem c4_handleMessage_check_write_independent_of_type
    (st : StorageSettings) (mt mt' : Nat) :
    handleMessageConfig st mt = handleMessageConfig st mt' ∧
      ∀ cfg, handleMessageConfig st mt = .ok cfg →
        cfg.checkWrite = cfg.aliveChecks := by
  refine ⟨rfl, fun cfg h => ?_⟩
  rcases st with ⟨p, fc, fs, cl, ct, cs⟩
  cases p
  · simp [handleMessageConfig, configureMultiStorage] at h
  · rcases cl with _ | ttl <;> rcases ct with _ | tmo <;>
      rcases hac : fs.getD (decide (0 < fc)) <;>
      simp [handleMessageConfig, configureMultiStorage, hac] at h <;>
      simp [← h]

/-- C4 witness: instantiation of the amended theorem at concrete settings and
message types. -/
theorem c4_handleMessage_check_write_witness :
    handleMessageConfig stEx checkTypeByte
        = handleMessageConfig stEx walFetchTypeByte ∧
      ∀ cfg, handleMessageConfig stEx checkTypeByte = .ok cfg →
        cfg.checkWrite = cfg.aliveChecks :=
  c4_handleMessage_check_write_independent_of_type stEx checkTypeByte
    walFetchTypeByte

/-- Every successful handler invocation writes exactly one reply byte. -/
theorem handleMsg_ok_length (env : DaemonEnv) (t : Nat) (body : Bytes)
    (r : Bytes) (h : handleMsg env t body = .ok r) : r.length = 1 := by
  unfold handleMsg walFetchHandle at h
  split at h
  · exact absurd h (by simp)
  · split at h
    · injection h with h; subst h; rfl
    · split at h
      · split at h
        · injection h with h; subst h; rfl
        · exact absurd h (by simp)
      · split at h
        · split at h
          · split at h
            · exact absurd h (by simp)
            · split at h
              · injection h with h; subst h; rfl
              · injection h with h; subst h; rfl
              · exact absurd h (by simp)
          · exact absurd h (by simp)
        · exact absurd h (by simp)

/-- C5 counterexample: a connection carrying two `Check` messages is served
both of them (plus a final `Error` when the next read fails), so the worker
does not read exactly one framed message nor write exactly one reply byte
per connection; the one-message discipline fails for `Check`. -/
theorem c5_counterexample_check_loops :
    listen envEx [some (checkTypeByte, []), some (checkTypeByte, [])]
        = ([okByte, okByte, errorByte], []) ∧
      ([okByte, okByte, errorByte] : Bytes).length ≠ 1 := by
  exact ⟨rfl, by decide⟩

/-- C5 (amended): for a `WalPush` or `WalFetch` message the worker writes
exactly one typed reply byte and closes, leaving the rest of the input
unread; a framing failure likewise yields a single `Error` byte and close;
but after a handled `Check` message the worker loops and keeps reading
from the same connection. -/
theorem c5_listen_one_reply_then_close (env : DaemonEnv) (rest : ConnInput)
    (t : Nat) (body : Bytes) :
    (t = walPushTypeByte ∨ t = walFetchTypeByte →
      (listen env (some (t, body) :: rest)).1.length = 1 ∧
        (listen env (some (t, body) :: rest)).2 = rest) ∧
    (t = checkTypeByte → env.configOk = true →
      listen env (some (t, body) :: rest)
        = (okByte :: (listen env rest).1, (listen env rest).2)) ∧
    listen env (none :: rest) = ([errorByte], rest) := by
  refine ⟨fun ht => ?_, fun ht hc => ?_, rfl⟩
  · cases h : handleMsg env t body with
    | error e => simp [listen, h]
    | ok replies =>
      simp [listen, h, if_pos ht]
      exact handleMsg_ok_length env t body replies h
  · subst ht
    have hmsg : handleMsg env checkTypeByte body = .ok [okByte] := by
      simp [handleMsg, hc, checkTypeByte]
    simp only [listen, hmsg]
    simp [checkTypeByte, walPushTypeByte, walFetchTypeByte]

/-- C5 witness: instantiation of the amended theorem: a `WalPush` message
gets one reply and closes; a `Check` message is answered `OK` and the loop
continues; a framing failure produces one `Error` byte. -/
theorem c5_listen_one_reply_witness :
    ((walPushTypeByte = walPushTypeByte ∨ walPushTypeByte = walFetchTypeByte) ∧
      (listen envEx [some (walPushTypeByte, [1])]).1.length = 1 ∧
        (listen envEx [some (walPushTypeByte, [1])]).2 = []) ∧
    (checkTypeByte = checkTypeByte ∧ envEx.configOk = true ∧
      listen envEx [some (checkTypeByte, [])]
        = (okByte :: (listen envEx []).1, (listen envEx []).2)) := by
  refine ⟨⟨Or.inl rfl, ?_⟩, rfl, rfl, ?_⟩
  · exact (c5_listen_one_reply_then_close envEx [] walPushTypeByte [1]).1
      (Or.inl rfl)
  · exact (c5_listen_one_reply_then_close envEx [] checkTypeByte []).2.1
      rfl rfl

/-- C8: when the fetch pipeline reports that the segment is absent in every
alive storage (`ArchiveNonExistenceError`), the handler writes the
`ArchiveNonExistence` reply byte and the request counts as handled without
error (the connection gets no `Error` byte); any other fetch failure makes
the worker reply `Error` instead. -/
theorem c8_walFetch_archive_non_existence (env : DaemonEnv) (body : Bytes)
    (f loc pg : Bytes) (rest : ConnInput)
    (hconf : env.configOk = true)
    (hargs : bytesToArgs body = [f, loc])
    (hpg : env.pgdata = some pg) :
    (env.fetchOut f (pg ++ 47 :: loc) = .archiveNonExistence →
      walFetchHandle env body = .ok [archiveNonExistenceByte] ∧
        listen env (some (walFetchTypeByte, body) :: rest)
          = ([archiveNonExistenceByte], rest)) ∧
    (env.fetchOut f (pg ++ 47 :: loc) = .failure →
      listen env (some (walFetchTypeByte, body) :: rest)
        = ([errorByte], rest)) := by
  have hdispatch : handleMsg env walFetchTypeByte body
      = walFetchHandle env body := by
    simp [handleMsg, hconf, walFetchTypeByte, checkTypeByte, walPushTypeByte]
  constructor
  · intro hane
    have hh : walFetchHandle env body = .ok [archiveNonExistenceByte] := by
      simp [walFetchHandle, hargs, getFullPath, hpg, hane]
    refine ⟨hh, ?_⟩
    simp [listen, hdispatch, hh]
  · intro hfail
    have hh : walFetchHandle env body = .error () := by
      simp [walFetchHandle, hargs, getFullPath, hpg, hfail]
    simp [listen, hdispatch, hh]

/-- C8 witness: on the concrete body `f\x00loc` the missing-everywhere case
replies `ArchiveNonExistence` and the other-failure case replies `Error`. -/
theorem c8_walFetch_witness :
    (envANE.configOk = true ∧
      listen envANE [some (walFetchTypeByte, [65, 0, 66])]
        = ([archiveNonExistenceByte], [])) ∧
    listen envFetchFail [some (walFetchTypeByte, [65, 0, 66])]
      = ([errorByte], []) := by
  refine ⟨⟨rfl, ?_⟩, ?_⟩
  · exact ((c8_walFetch_archive_non_existence envANE [65, 0, 66] [65] [66]
      [100] [] rfl (by decide) rfl).1 rfl).2
  · exact (c8_walFetch_archive_non_existence envFetchFail [65, 0, 66] [65]
      [66] [100] [] rfl (by decide) rfl).2 rfl

/-- Characterisation of `betterStatus` through the numeric rank. -/
theorem betterStatus_iff_rank (b a : StorageStatus) :
    betterStatus b a ↔ statusRank a < statusRank b := by
  rcases a with ⟨aa, ac, aw⟩
  rcases b with ⟨ba, bc, bw⟩
  cases aa <;> cases ba <;> simp [betterStatus, statusRank] <;> omega

/-- The merge rule selects the better entry and keeps the first one on a
full tie. -/
theorem mergeStatus_eq_rank (a b : StorageStatus) :
    mergeStatus a b = if statusRank a < statusRank b then b else a := by
  rcases a with ⟨aa, ac, aw⟩
  rcases b with ⟨ba, bc, bw⟩
  cases aa <;> cases ba <;>
    simp only [mergeStatus, statusRank] <;>
    split_ifs <;> first | rfl | omega

/-- Fact entries with the same rank agree on aliveness and timestamp. -/
theorem rank_eq_proj (a b : StorageStatus)
    (h : statusRank a = statusRank b) :
    a.alive = b.alive ∧ a.checkedAt = b.checkedAt := by
  rcases a with ⟨aa, ac, aw⟩
  rcases b with ⟨ba, bc, bw⟩
  cases aa <;> cases ba <;> simp [statusRank] at h ⊢ <;> omega

/-- Associativity of the per-key merge rule: both sides select the first
entry of maximal rank among the three. -/
theorem mergeStatus_assoc (a b c : StorageStatus) :
    mergeStatus a (mergeStatus b c) = mergeStatus (mergeStatus a b) c := by
  simp only [mergeStatus_eq_rank]
  split_ifs <;> first | rfl | omega

/-- Looking up the key just written by `upsert` yields the new value. -/
theorem lookup_upsert_self (m : StatusMap) (k : Key) (v : StorageStatus) :
    lookupKey (upsert m k v) k = some v := by
  induction m with
  | nil => simp [upsert, lookupKey]
  | cons e t ih =>
    by_cases he : e.1 = k
    · simp [upsert, he, lookupKey]
    · simp [upsert, he, lookupKey, ih]

/-- `upsert` leaves lookups of other keys unchanged. -/
theorem lookup_upsert_other (m : StatusMap) (k k' : Key) (v : StorageStatus)
    (h : k' ≠ k) : lookupKey (upsert m k v) k' = lookupKey m k' := by
  induction m with
  | nil => simp [upsert, lookupKey, Ne.symm h]
  | cons e t ih =>
    by_cases he : e.1 = k
    · subst he
      simp [upsert, lookupKey, Ne.symm h]
    · simp [upsert, he, lookupKey, ih]

/-- Keys of `upsert m k v` are the keys of `m` with `k` added or replaced. -/
theorem keys_upsert (m : StatusMap) (k : Key) (v : StorageStatus) :
    (upsert m k v).map (·.1)
      = if k ∈ m.map (·.1) then m.map (·.1) else m.map (·.1) ++ [k] := by
  induction m with
  | nil => simp [upsert]
  | cons e t ih =>
    by_cases he : e.1 = k
    · simp [upsert, he]
    · by_cases hm : k ∈ t.map (·.1)
      · simp [upsert, he, ih, hm, Ne.symm he]
      · simp [upsert, he, ih, hm, Ne.symm he]

/-- `upsert` preserves key distinctness. -/
theorem nodup_upsert (m : StatusMap) (k : Key) (v : StorageStatus)
    (h : nodupKeys m) : nodupKeys (upsert m k v) := by
  unfold nodupKeys at h ⊢
  rw [keys_upsert]
  split_ifs with hmem
  · exact h
  · rw [List.nodup_append]
    refine ⟨h, List.nodup_singleton _, ?_⟩
    intro x hx hk
    simp only [List.mem_singleton] at hk
    subst hk
    exact hmem hx

/-- Lookup of a key that is not among the keys of a map is `none`. -/
theorem lookup_eq_none_of_not_mem (m : StatusMap) (k : Key)
    (h : k ∉ m.map (·.1)) : lookupKey m k = none := by
  induction m with
  | nil => rfl
  | cons e t ih =>
    simp only [List.map_cons, List.mem_cons] at h
    push_neg at h
    simpa [lookupKey, Ne.symm h.1] using ih h.2

/-- One step of the `mergeByRelevance` fold. -/
theorem mergeByRelevance_cons (a : StatusMap) (e : Key × StorageStatus)
    (tb : StatusMap) :
    mergeByRelevance a (e :: tb)
      = mergeByRelevance
          (upsert a e.1
            (match lookupKey a e.1 with
              | none => e.2
              | some old => mergeStatus old e.2)) tb := rfl

/-- Pointwise characterisation of `mergeByRelevance`: provided the second
map has no duplicate keys, the merged map looks up to the `combineStatus`
of the two lookups (so per key the entry with the later `checked_at` wins,
alive is preferred on ties, and an entry present on either side survives). -/
theorem lookup_merge (a b : StatusMap) (hb : nodupKeys b) (k : Key) :
    lookupKey (mergeByRelevance a b) k
      = combineStatus (lookupKey a k) (lookupKey b k) := by
  induction b generalizing a with
  | nil =>
    cases h : lookupKey a k <;>
      simp [mergeByRelevance, combineStatus, lookupKey, h]
  | cons e tb ih =>
    rw [nodupKeys, List.map_cons, List.nodup_cons] at hb
    obtain ⟨hnotin, hnd⟩ := hb
    rw [mergeByRelevance_cons, ih _ hnd]
    by_cases hk : k = e.1
    · subst hk
      rw [lookup_eq_none_of_not_mem tb _ hnotin, lookup_upsert_self]
      have hhead : lookupKey (e :: tb) e.1 = some e.2 := by
        simp [lookupKey]
      rw [hhead]
      cases h : lookupKey a e.1 <;> simp [combineStatus, h]
    · rw [lookup_upsert_other _ _ _ _ hk]
      have hhead : lookupKey (e :: tb) k = lookupKey tb k := by
        simp [lookupKey, Ne.symm hk]
      rw [hhead]

/-- `mergeByRelevance` preserves key distinctness of the accumulator. -/
theorem nodup_merge (a b : StatusMap) (ha : nodupKeys a) :
    nodupKeys (mergeByRelevance a b) := by
  induction b generalizing a with
  | nil => exact ha
  | cons e tb ih => exact mergeByRelevance_cons a e tb ▸ ih _ (nodup_upsert _ _ _ ha)

/-- The merged entry is always one of the two inputs, so the winner's
`operation_weight_sum` is kept verbatim and weights are never summed. -/
theorem mergeStatus_or (s s' : StorageStatus) :
    mergeStatus s s' = s ∨ mergeStatus s s' = s' := by
  unfold mergeStatus
  split_ifs <;> simp

/-- The merged entry carries the larger `checked_at`. -/
theorem mergeStatus_checkedAt_max (s s' : StorageStatus) :
    (mergeStatus s s').checkedAt = max s.checkedAt s'.checkedAt := by
  rcases s with ⟨sa, sc, sw⟩
  rcases s' with ⟨sa', sc', sw'⟩
  simp only [mergeStatus]
  split_ifs <;> dsimp only <;> omega

/-- On equal timestamps the merged entry is alive iff either input is. -/
theorem mergeStatus_alive_tie (s s' : StorageStatus)
    (h : s.checkedAt = s'.checkedAt) :
    (mergeStatus s s').alive = (s.alive || s'.alive) := by
  rcases s with ⟨sa, sc, sw⟩
  rcases s' with ⟨sa', sc', sw'⟩
  simp only at h
  subst h
  simp only [mergeStatus, lt_irrefl, if_false]
  cases sa <;> cases sa' <;> simp

/-- Associativity of `combineStatus`. -/
theorem combineStatus_assoc (x y z : Option StorageStatus) :
    combineStatus x (combineStatus y z)
      = combineStatus (combineStatus x y) z := by
  cases x <;> cases y <;> cases z <;>
    simp [combineStatus, mergeStatus_assoc]

/-- C6 counterexample: merging two maps whose entries for the same key tie
on `checked_at` and `alive` but differ in `operation_weight_sum` is not
commutative — the winner (and hence the kept weight) depends on the
argument order, so `merge(A, B) == merge(B, A)` fails. -/
theorem c6_counterexample_merge_not_commutative :
    lookupKey (mergeByRelevance mapA mapB) k0 = some ⟨true, 5, 1⟩ ∧
      lookupKey (mergeByRelevance mapB mapA) k0 = some ⟨true, 5, 2⟩ ∧
      ¬ mapEquiv (mergeByRelevance mapA mapB) (mergeByRelevance mapB mapA) := by
  refine ⟨by decide, by decide, fun h => ?_⟩
  have := h k0
  rw [show lookupKey (mergeByRelevance mapA mapB) k0 = some ⟨true, 5, 1⟩
      from by decide,
    show lookupKey (mergeByRelevance mapB mapA) k0 = some ⟨true, 5, 2⟩
      from by decide] at this
  simp at this

/-- C6 (amended): per key the merge picks the entry with the larger
`checked_at`, prefers the alive entry on equal timestamps, and keeps the
winning entry whole (its weight is the winner's, never a sum); merge is
associative as Go-map equality; commutativity holds only up to the
`(alive, checked_at)` projection — the kept weight may depend on the
argument order when entries fully tie. -/
theorem c6_merge_rule_assoc_proj_comm (A B C : StatusMap)
    (hA : nodupKeys A) (hB : nodupKeys B) (hC : nodupKeys C) :
    (∀ k, lookupKey (mergeByRelevance A B) k
        = combineStatus (lookupKey A k) (lookupKey B k)) ∧
    (∀ s s' : StorageStatus,
      (mergeStatus s s' = s ∨ mergeStatus s s' = s') ∧
        (mergeStatus s s').checkedAt = max s.checkedAt s'.checkedAt ∧
        (s.checkedAt = s'.checkedAt →
          (mergeStatus s s').alive = (s.alive || s'.alive))) ∧
    mapEquiv (mergeByRelevance A (mergeByRelevance B C))
      (mergeByRelevance (mergeByRelevance A B) C) ∧
    (∀ k, (lookupKey (mergeByRelevance A B) k).map
          (fun s => (s.alive, s.checkedAt))
        = (lookupKey (mergeByRelevance B A) k).map
          (fun s => (s.alive, s.checkedAt))) := by
  refine ⟨lookup_merge A B hB, fun s s' => ?_, fun k => ?_, fun k => ?_⟩
  · exact ⟨mergeStatus_or s s', mergeStatus_checkedAt_max s s',
      mergeStatus_alive_tie s s'⟩
  · rw [lookup_merge _ _ (nodup_merge B C hB), lookup_merge _ _ hC,
      lookup_merge _ _ hC, lookup_merge _ _ hB, combineStatus_assoc]
  · rw [lookup_merge _ _ hB, lookup_merge _ _ hA]
    cases hx : lookupKey A k <;> cases hy : lookupKey B k <;>
      simp only [combineStatus, Option.map]
    case some.some x y =>
      simp only [mergeStatus_eq_rank]
      rcases lt_trichotomy (statusRank x) (statusRank y) with h | h | h
      · rw [if_pos h, if_neg (by omega)]
      · rw [if_neg (by omega), if_neg (by omega)]
        have := rank_eq_proj x y h
        simp [this.1, this.2]
      · rw [if_neg (by omega), if_pos h]

/-- C6 witness: instantiation of the amended merge theorem at the concrete
example maps. -/
theorem c6_merge_witness :
    nodupKeys mapA ∧
      mapEquiv (mergeByRelevance mapA (mergeByRelevance mapB mapA))
        (mergeByRelevance (mergeByRelevance mapA mapB) mapA) :=
  ⟨by decide,
    (c6_merge_rule_assoc_proj_comm mapA mapB mapA (by decide) (by decide)
      (by decide)).2.2.1⟩

/-- C1 counterexample: `ApplyOperationResult` triggers a file write (the
handle is older than the flush timeout) and writes the in-memory map alone:
the key `k1`, present in the file beforehand, is absent afterwards — the
written content is a strict subset of what the file contained, not a
merge. -/
theorem c1_counterexample_apply_overwrites_file :
    lookupKey (stateC1.file.getD []) k1 = some ⟨true, 50, 0⟩ ∧
      (cacheApplyOperationResult cfgEx stateC1 1000 ['s'] true 1).file
        = some [(k0, ⟨true, 1000, 1⟩)] ∧
      lookupKey
        ((cacheApplyOperationResult cfgEx stateC1 1000 ['s'] true 1).file.getD
          []) k1 = none := by
  refine ⟨by decide, by decide, by decide⟩

/-- C1 (amended): only `Flush` writes the merge of memory with the file's
previous content, so file keys survive a flush; `ApplyOperationResult` and
`ApplyExplicitCheckResult` rewrite the file with exactly the writer's
in-memory map, so a key present only in the file is dropped by those
writes. -/
theorem c1_flush_merges_apply_writes_mem (cfg : CacheConfig)
    (s : CacheState) (now : Nat) (storage : GoStr) (alive : Bool)
    (weight : Int) (checkResult : List (GoStr × Bool)) (names : List GoStr)
    (hf : cfg.fileUsed = true) :
    (cfg.flushTimeout ≤ now - s.fileUpdated →
      (cacheApplyOperationResult cfg s now storage alive weight).file
        = some (cacheApplyOperationResult cfg s now storage alive weight).mem) ∧
    (cfg.flushTimeout ≤ now - s.fileUpdated →
      ∀ r s', cacheApplyExplicitCheckResult cfg s now checkResult names
          = .ok (r, s') → s'.file = some s'.mem) ∧
    ((cacheFlush cfg s).file
        = some (mergeByRelevance s.mem (s.file.getD [])) ∧
      (nodupKeys (s.file.getD []) →
        ∀ k, (lookupKey (s.file.getD []) k).isSome = true →
          (lookupKey ((cacheFlush cfg s).file.getD []) k).isSome = true)) := by
  refine ⟨fun ht => ?_, fun ht r s' hok => ?_, ?_, fun hnd k hk => ?_⟩
  · unfold cacheApplyOperationResult
    rw [hf]
    simp only [Bool.not_true, Bool.false_eq_true, if_false]
    rw [if_neg (by omega)]
  · unfold cacheApplyExplicitCheckResult at hok
    split at hok
    · exact absurd hok (by simp)
    · rw [hf] at hok
      simp only [Bool.not_true, Bool.false_eq_true, if_false] at hok
      rw [if_neg (by omega)] at hok
      injection hok with hok
      have hs' := congrArg Prod.snd hok
      simp only at hs'
      rw [← hs']
  · unfold cacheFlush
    rw [hf]
    simp
  · unfold cacheFlush
    rw [hf]
    simp only [Bool.not_true, Bool.false_eq_true, if_false, Option.getD_some]
    rw [lookup_merge _ _ hnd]
    cases hm : lookupKey s.mem k <;>
      cases hcf : lookupKey (s.file.getD []) k <;>
      simp_all [combineStatus]

/-- C1 witness: instantiation of the amended theorem at the concrete C1
state: the apply-path write equals the new in-memory map and the flush
write preserves the file's key `k1`. -/
theorem c1_flush_merges_witness :
    cfgEx.fileUsed = true ∧ cfgEx.flushTimeout ≤ 1000 - stateC1.fileUpdated ∧
      (cacheApplyOperationResult cfgEx stateC1 1000 ['s'] true 1).file
        = some (cacheApplyOperationResult cfgEx stateC1 1000 ['s'] true 1).mem ∧
      (cacheFlush cfgEx stateC1).file
        = some (mergeByRelevance stateC1.mem (stateC1.file.getD [])) :=
  ⟨by decide, by decide,
    (c1_flush_merges_apply_writes_mem cfgEx stateC1 1000 ['s'] true 1 [] []
      (by decide)).1 (by decide),
    ((c1_flush_merges_apply_writes_mem cfgEx stateC1 1000 ['s'] true 1 [] []
      (by decide)).2.2).1⟩

/-- C2: the claim says `Read` returns without touching the cache file when
every requested key has a relevant in-memory fact. In the code this fast
path is unreachable for any non-empty request because `correspondingKeys`
pads the key list with zero-value keys (the `make`+`append` slip the spec
itself flags), which never have facts: here the single requested storage
`"s"` has a relevant fact at `now = 100` with TTL 10, yet `Read` consults
the file (`fileTouched = true`). -/
theorem c2_read_fast_path_unreachable :
    (lookupName cfgEx.usedKeys ['s'] = some k0 ∧
      lookupKey stateC2.mem k0 = some ⟨true, 100, 0⟩ ∧
      statusRelevant cfgEx.ttl 100 ⟨true, 100, 0⟩ = true) ∧
    cacheRead cfgEx stateC2 100 [['s']]
      = .ok ⟨[(['s'], true)], [([], false)], stateC2, true⟩ := by
  refine ⟨⟨by decide, by decide, by decide⟩, by rfl⟩

/-- Mapping a function over a list commutes with an ordered insert when the
function reflects the order. -/
theorem orderedInsert_map {α β : Type} (r : α → α → Prop)
    (r' : β → β → Prop) [DecidableRel r] [DecidableRel r'] (f : α → β)
    (hc : ∀ a b, r' (f a) (f b) ↔ r a b) (a : α) (l : List α) :
    List.orderedInsert r' (f a) (l.map f)
      = (List.orderedInsert r a l).map f := by
  induction l with
  | nil => rfl
  | cons b t ih =>
    simp only [List.map_cons, List.orderedInsert]
    by_cases h : r a b
    · rw [if_pos ((hc a b).mpr h), if_pos h]
      simp
    · rw [if_neg (fun hh => h ((hc a b).mp hh)), if_neg h, List.map_cons, ih]

/-- Mapping a function over a list commutes with insertion sort when the
function reflects the order. -/
theorem insertionSort_map {α β : Type} (r : α → α → Prop)
    (r' : β → β → Prop) [DecidableRel r] [DecidableRel r'] (f : α → β)
    (hc : ∀ a b, r' (f a) (f b) ↔ r a b) (l : List α) :
    List.insertionSort r' (l.map f) = (List.insertionSort r l).map f := by
  induction l with
  | nil => rfl
  | cons a t ih =>
    simp only [List.map_cons, List.insertionSort, ih]
    exact orderedInsert_map r r' f hc a _

/-- Taking while a predicate holds skips over a block where it holds
everywhere. -/
theorem takeWhile_append_all (p : Char → Bool) (l m : List Char)
    (h : ∀ x ∈ l, p x = true) :
    (l ++ m).takeWhile p = l ++ m.takeWhile p := by
  induction l with
  | nil => rfl
  | cons a t ih =>
    have ha := h a (List.mem_cons_self a t)
    simp [List.takeWhile_cons, ha,
      ih (fun x hx => h x (List.mem_cons_of_mem a hx))]

/-- Dropping while a predicate holds skips over a block where it holds
everywhere. -/
theorem dropWhile_append_all (p : Char → Bool) (l m : List Char)
    (h : ∀ x ∈ l, p x = true) :
    (l ++ m).dropWhile p = m.dropWhile p := by
  induction l with
  | nil => rfl
  | cons a t ih =>
    have ha := h a (List.mem_cons_self a t)
    simp [List.dropWhile_cons, ha,
      ih (fun x hx => h x (List.mem_cons_of_mem a hx))]

/-- Parsing inverts printing for keys whose name is free of `#`. -/
theorem parseKey_keyStr (k : Key) (h : '#' ∉ k.name) :
    parseKey (keyStr k) = k := by
  rcases k with ⟨nm, hs⟩
  simp only [List.mem_singleton] at h
  have hall : ∀ x ∈ nm, (x != '#') = true := by
    intro x hx
    rw [bne_iff_ne]
    intro he
    exact h (he ▸ hx)
  unfold parseKey keyStr
  simp only [Key.mk.injEq]
  constructor
  · rw [takeWhile_append_all _ _ _ hall]
    simp [List.takeWhile_cons]
  · rw [dropWhile_append_all _ _ _ hall]
    simp [List.dropWhile_cons]

/-- Round-trip of the cache-file serialisation for maps whose key names
contain no `#`: decoding the marshalled object recovers the map in
canonical (sorted-keys) form. -/
theorem unmarshal_marshal (m : StatusMap)
    (h : ∀ e ∈ m, '#' ∉ e.1.name) :
    unmarshalFile (marshalFile m) = canonicalFile m := by
  unfold unmarshalFile marshalFile canonicalFile
  rw [insertionSort_map keyPairLe pairLe (fun e => (keyStr e.1, e.2))
    (fun a b => Iff.rfl) m, List.map_map]
  have hid : ∀ e ∈ List.insertionSort keyPairLe m,
      ((fun e => (parseKey e.1, e.2)) ∘ fun e => (keyStr e.1, e.2)) e = e := by
    intro e he
    have hm : e ∈ m := (List.perm_insertionSort keyPairLe m).mem_iff.mp he
    simp only [Function.comp]
    rw [parseKey_keyStr e.1 (h e hm)]
  rw [List.map_congr_left hid]
  exact List.map_id _

/-- Truncating to the new length and then writing at offset 0 leaves the
file holding exactly the written bytes, with no stale tail. -/
theorem sharedFileWrite_exact (old data : Bytes) :
    sharedFileWrite old data = data := by
  unfold sharedFileWrite goWriteAt0 goTruncate
  have hlen : (old.take data.length
      ++ List.replicate (data.length - old.length) 0).length
      = data.length := by
    simp only [List.length_append, List.length_take, List.length_replicate]
    omega
  rw [List.drop_eq_nil_of_le (le_of_eq hlen), List.append_nil]

/-- C7 counterexample: the spec's key format `"<name>#<config_hash>"` is
not injective, so `read(write(m)) == m` fails for every parser on some map:
for a key whose name contains `#`, parsing re-associates the parts and the
round trip returns a different map. -/
theorem c7_counterexample_hash_in_name :
    unmarshalFile (marshalFile mapHash)
        = [(⟨['a'], ['b', '#', 'c']⟩, ⟨true, 1, 0⟩)] ∧
      canonicalFile mapHash = mapHash ∧
      unmarshalFile (marshalFile mapHash) ≠ canonicalFile mapHash := by
  refine ⟨by decide, by decide, by decide⟩

/-- C7 (amended): for maps whose key names contain no `#` (so the
serialised key strings are unambiguous), writing and reading back yields
the map again in canonical sorted-keys form; and independently of content,
a write leaves the file holding exactly the new serialisation and nothing
more, because the file is truncated to the new length before the bytes are
written. -/
theorem c7_write_read_roundtrip (m : StatusMap) (old data : Bytes)
    (hnames : ∀ e ∈ m, '#' ∉ e.1.name) :
    unmarshalFile (marshalFile m) = canonicalFile m ∧
      sharedFileWrite old data = data :=
  ⟨unmarshal_marshal m hnames, sharedFileWrite_exact old data⟩

/-- C7 witness: instantiation of the round-trip and truncation theorem at a
concrete map and file contents. -/
theorem c7_write_read_witness :
    (∀ e ∈ mapA, '#' ∉ e.1.name) ∧
      unmarshalFile (marshalFile mapA) = canonicalFile mapA ∧
      sharedFileWrite [1, 2, 3] [7] = [7] :=
  ⟨by decide,
    (c7_write_read_roundtrip mapA [1, 2, 3] [7] (by decide)).1,
    (c7_write_read_roundtrip mapA [1, 2, 3] [7] (by decide)).2⟩

/-- Trimming a freshly appended prefix recovers the extension. -/
theorem trimPre_append (base r : GoStr) : trimPre (base ++ r) base = r := by
  have hp : base.isPrefixOf (base ++ r) = true :=
    List.isPrefixOf_iff_prefix.mpr ⟨r, rfl⟩
  rw [trimPre, if_pos hp, List.drop_left]

/-- The flattened DFS listing distributes over list concatenation. -/
theorem dfsFlatList_append (base : GoStr) (a b : List FolderTree) :
    dfsFlatList base (a ++ b) = dfsFlatList base a ++ dfsFlatList base b := by
  induction a with
  | nil => rfl
  | cons t ts ih => simp [dfsFlatList, ih]

/-- The BFS of `ListFolderRecursivelyWithFilter` (with the always-true
selector) lists, as a set, exactly what the flattened DFS lists: traversal
order is the only difference. -/
theorem bfs_mem_aux (base : GoStr) (x : GoStr) :
    ∀ (n : Nat) (q : List FolderTree), FolderTree.sizeList q ≤ n →
      (x ∈ bfsAux base (fun _ => true) q ↔ x ∈ dfsFlatList base q) := by
  intro n
  induction n with
  | zero =>
    intro q hq
    cases q with
    | nil => simp [bfsAux, dfsFlatList]
    | cons t ts =>
      exfalso
      simp [FolderTree.sizeList] at hq
  | succ n ih =>
    intro q hq
    cases q with
    | nil => simp [bfsAux, dfsFlatList]
    | cons t ts =>
      rcases t with ⟨p, objs, subs⟩
      simp only [FolderTree.sizeList, FolderTree.size] at hq
      simp only [bfsAux, FolderTree.objs, FolderTree.path, FolderTree.subs]
      have hfilter :
          filterSubfolders base subs (fun _ => true) = subs := by
        simp [filterSubfolders]
      rw [hfilter]
      have hsz : FolderTree.sizeList (ts ++ subs) ≤ n := by
        rw [sizeList_append]
        omega
      rw [List.mem_append, ih _ hsz, dfsFlatList_append]
      simp only [dfsFlatList, dfsFlat, List.append_nil, List.mem_append,
        FolderTree.objs, FolderTree.path]
      tauto

mutual

/-- Under well-formedness, the flattened DFS listing relative to a base
path equals the structural relative-name specification with the tree's own
relative path prepended. -/
theorem dfsFlat_relSpec : ∀ (t : FolderTree) (base r : GoStr),
    t.path = base ++ r → wfTree t = true →
    dfsFlat base t = (relSpec t).map (fun n => r ++ n)
  | .node p objs subs, base, r, hp, hwf => by
    simp only [FolderTree.path] at hp
    subst hp
    simp only [wfTree] at hwf
    simp only [dfsFlat, relSpec, List.map_append]
    have h1 : objs.map (joinPath (trimPre (base ++ r) base))
        = objs.map (fun n => r ++ n) := by
      rw [trimPre_append]
      rfl
    rw [h1, dfsFlatList_relSpecList subs (base ++ r) base r rfl hwf]
termination_by t _ _ _ _ => 2 * FolderTree.size t
decreasing_by
  all_goals try simp only [FolderTree.size, FolderTree.sizeList]
  all_goals omega

/-- List version of `dfsFlat_relSpec`. -/
theorem dfsFlatList_relSpecList : ∀ (ts : List FolderTree) (p base r : GoStr),
    p = base ++ r → wfSubs p ts = true →
    dfsFlatList base ts = (relSpecList p ts).map (fun n => r ++ n)
  | [], _, _, _, _, _ => rfl
  | t :: ts', p, base, r, hp, hwf => by
    simp only [wfSubs, Bool.and_eq_true] at hwf
    obtain ⟨⟨hpre, hwt⟩, hrest⟩ := hwf
    obtain ⟨rc, hrc⟩ := List.isPrefixOf_iff_prefix.mp hpre
    simp only [dfsFlatList, relSpecList, List.map_append]
    rw [dfsFlat_relSpec t base (r ++ rc)
      (by rw [← hrc, hp, List.append_assoc]) hwt]
    rw [dfsFlatList_relSpecList ts' p base r hp hrest]
    have htrim : trimPre t.path p = rc := by
      rw [← hrc, trimPre_append]
    rw [List.map_map]
    have hmc : ∀ a ∈ relSpec t,
        ((fun n => r ++ n) ∘ fun n => trimPre t.path p ++ n) a
          = (fun n => (r ++ rc) ++ n) a := by
      intro a _
      simp [Function.comp, htrim, List.append_assoc]
    rw [List.map_congr_left hmc]
termination_by ts _ _ _ _ _ => 2 * FolderTree.sizeList ts + 1
decreasing_by
  all_goals try simp only [FolderTree.size, FolderTree.sizeList]
  all_goals omega

end

/-- Finding by equality in a list that contains the needle yields the
needle. -/
theorem find_beq_of_mem (l : List GoStr) (a : GoStr) (h : a ∈ l) :
    l.find? (fun o => o == a) = some a := by
  induction l with
  | nil => cases h
  | cons b t ih =>
    by_cases hb : b = a
    · subst hb
      simp [List.find?]
    · have hf : (b == a) = false := beq_eq_false_iff_ne.mpr hb
      simp only [List.find?, hf]
      cases h with
      | head => exact absurd rfl hb
      | tail _ hmem => exact ih hmem

/-- Concatenating the two halves of `path.Split` recovers the path. -/
theorem goPathSplit_append (s : GoStr) :
    (goPathSplit s).1 ++ (goPathSplit s).2 = s := by
  show s.take (s.length
      - ((s.reverse.takeWhile (fun c => c != '/')).reverse).length)
    ++ (s.reverse.takeWhile (fun c => c != '/')).reverse = s
  generalize hf : (s.reverse.takeWhile (fun c => c != '/')).reverse = file
  have hpref : file.reverse <+: s.reverse := by
    rw [← hf, List.reverse_reverse]
    exact List.takeWhile_prefix _
  obtain ⟨u, hu⟩ := hpref
  have hs : u.reverse ++ file = s := by
    have hrev := congrArg List.reverse hu
    simpa [List.reverse_append, List.reverse_reverse] using hrev
  rw [← hs]
  have hl : (u.reverse ++ file).length - file.length = u.reverse.length := by
    simp
  rw [hl, List.take_left]

/-- C9: `ListFolderRecursively` returns exactly the objects reachable under
the entry folder, each named relative to the entry folder (the containing
sub-folder's relative path prepended, level by level); and
`ListFolderRecursivelyWithPrefix`, when the prefix is non-empty, does not
end in `/`, and names an object existing in its parent folder, returns
exactly that single object (named by the trimmed prefix) without recursing
further. -/
theorem c9_recursive_listing (t : FolderTree) (hwf : wfTree t = true) :
    (∀ x, x ∈ listFolderRecursively t ↔ x ∈ relSpec t) ∧
    (∀ (pfx : GoStr) (parent : FolderTree),
      pfx ≠ [] → hasSuffixSlash pfx = false →
      getSubFolder t (goPathSplit (trimSlashes pfx)).1 = some parent →
      (goPathSplit (trimSlashes pfx)).2 ∈ parent.objs →
      listFolderRecursivelyWithPfx t pfx = [trimSlashes pfx]) := by
  constructor
  · intro x
    unfold listFolderRecursively listFolderRecursivelyWithFilter
    rw [bfs_mem_aux t.path x (FolderTree.sizeList [t]) [t] le_rfl]
    simp only [dfsFlatList, List.append_nil]
    rw [dfsFlat_relSpec t t.path [] (by simp) hwf]
    simp
  · intro pfx parent hne hns hnav hmem
    unfold listFolderRecursivelyWithPfx
    rw [if_pos ⟨hne, hns⟩, hnav]
    simp only [listObjsOpt]
    rw [find_beq_of_mem parent.objs _ hmem]
    simp only [joinPath]
    rw [goPathSplit_append]

/-- C9 witness: on the concrete two-level tree, the recursive listing
coincides with the relative-name specification, and the prefix variant
short-circuits to the single object `s/o2`. -/
theorem c9_recursive_listing_witness :
    wfTree tEx = true ∧
      (['s', '/', 'o', '2'] ∈ listFolderRecursively tEx ↔
        ['s', '/', 'o', '2'] ∈ relSpec tEx) ∧
      listFolderRecursivelyWithPfx tEx ['s', '/', 'o', '2']
        = [trimSlashes ['s', '/', 'o', '2']] :=
  ⟨by decide,
    (c9_recursive_listing tEx (by decide)).1 _,
    (c9_recursive_listing tEx (by decide)).2 ['s', '/', 'o', '2']
      (.node ['e', '/', 's', '/'] [['o', '2']] []) (by decide) (by decide)
      rfl (by decide)⟩

/-- C10: `Next` sizes the body as the 16-bit wrap of `length − 3`. For a
frame whose declared big-endian length `ℓ = 256*b1 + b2` is at least 3, it
reads exactly `ℓ − 3` body bytes (succeeding iff that many are available);
for `ℓ < 3` it instead attempts `2^16 + ℓ − 3` bytes (65533 for `ℓ = 0`)
rather than rejecting the frame. -/
theorem c10_socketNext_body_length (t b1 b2 : Nat) (rest : Bytes)
    (hb1 : b1 < 256) (hb2 : b2 < 256) :
    let msgLen := 256 * b1 + b2
    (3 ≤ msgLen →
      (socketNext (t :: b1 :: b2 :: rest)
          = if msgLen - 3 ≤ rest.length then
              .ok (t, rest.take (msgLen - 3), rest.drop (msgLen - 3))
            else .error ['b', 'o', 'd', 'y'])) ∧
    (msgLen < 3 →
      (socketNext (t :: b1 :: b2 :: rest)
          = if 2 ^ 16 + msgLen - 3 ≤ rest.length then
              .ok (t, rest.take (2 ^ 16 + msgLen - 3),
                rest.drop (2 ^ 16 + msgLen - 3))
            else .error ['b', 'o', 'd', 'y'])) := by
  intro msgLen
  have hlt : msgLen < 2 ^ 16 := by
    simp only [msgLen]
    omega
  constructor
  · intro h3
    have hmod : nextBodyLen msgLen = msgLen - 3 := by
      unfold nextBodyLen
      omega
    simp only [socketNext, hmod]
  · intro h3
    have hmod : nextBodyLen msgLen = 2 ^ 16 + msgLen - 3 := by
      unfold nextBodyLen
      omega
    simp only [socketNext, hmod]

/-- C10 witness: a frame with declared length 0 (bytes `00 00`) attempts to
read 65533 body bytes and fails on an empty rest; a frame with declared
length 4 reads exactly one body byte. -/
theorem c10_socketNext_witness :
    (3 ≤ 256 * 0 + 4 ∧
      socketNext (0x46 :: 0 :: 4 :: [9])
        = if 256 * 0 + 4 - 3 ≤ [9].length then
            .ok (0x46, [9].take (256 * 0 + 4 - 3), [9].drop (256 * 0 + 4 - 3))
          else .error ['b', 'o', 'd', 'y']) ∧
    (256 * 0 + 0 < 3 ∧
      socketNext (0x46 :: 0 :: 0 :: ([] : Bytes))
        = if 2 ^ 16 + (256 * 0 + 0) - 3 ≤ ([] : Bytes).length then
            .ok (0x46, ([] : Bytes).take (2 ^ 16 + (256 * 0 + 0) - 3),
              ([] : Bytes).drop (2 ^ 16 + (256 * 0 + 0) - 3))
          else .error ['b', 'o', 'd', 'y']) :=
  ⟨⟨by decide,
    ((c10_socketNext_body_length 0x46 0 4 [9] (by decide) (by decide)).1
      (by decide))⟩,
   ⟨by decide,
    ((c10_socketNext_body_length 0x46 0 0 [] (by decide) (by decide)).2
      (by decide))⟩⟩

end WalG
